import Mathlib

/-!
Shallow embedding of the Mago VS Code extension client
(`src/client/src/extension.ts`) : the diagnostic reconciliation engine
(`updateDiagnostics`), the coordinate mapper (`getColumnFromOffset`),
the process invoker's close handler (`runMago`), the command assembler
(argument ordering inside `runMago`), the code-action lookup
(`MagoCodeActionProvider.provideCodeActions`), and the suppression /
format-ignore editors (`addSuppression`, `addFormatIgnoreRegion`).

Text is modelled as `List Char`; a document is a list of lines
(`List (List Char)`), none of which contains a line feed.  JavaScript
`Map` objects are modelled as association lists whose `get`/`set`
semantics match the source observably.
-/

namespace MagoVscode

/-- whitespace class of JavaScript's `\s` (restricted to the ASCII range,
which is all the source ever feeds it). -/
def jsIsSpace (c : Char) : Bool :=
  c = ' ' || c = '\t' || c = '\n' || c = '\r' || c = '\x0b' || c = '\x0c'

/-- embedding of JavaScript `String.prototype.trim`. -/
def jsTrim (l : List Char) : List Char :=
  ((l.dropWhile jsIsSpace).reverse.dropWhile jsIsSpace).reverse

/-- leading whitespace of a line, the match of the regex `/^\s*/`. -/
def leadingWS (l : List Char) : List Char :=
  l.takeWhile jsIsSpace

/-- embedding of JavaScript `String.prototype.split` with a one-character
separator: `splitChar c l` never returns `[]`, and the fragments joined
by `c` reconstitute `l`. -/
def splitChar (c : Char) : List Char → List (List Char)
  | [] => [[]]
  | x :: xs =>
    if x = c then [] :: splitChar c xs
    else
      match splitChar c xs with
      | [] => [[x]]
      | y :: ys => (x :: y) :: ys

/- ## Data model (the `Mago*` interfaces of extension.ts) -/

/-- TS interface `MagoFileId` (also the `file_id` field of a span). -/
structure MagoFileId where
  name : String
  path : String
  size : Nat
  file_type : String
deriving DecidableEq

/-- one endpoint of a span: byte offset plus the tool-reported line
(kept as `Int` because the tool's value is not trusted to be
non-negative; see the `Math.max(0, ...)` clamps in `updateDiagnostics`). -/
structure SpanPoint where
  offset : Nat
  line : Int
deriving DecidableEq

/-- TS interface `MagoSpan`; the source field `end` is a Lean keyword and
is rendered `stop` here. -/
structure MagoSpan where
  file_id : MagoFileId
  start : SpanPoint
  stop : SpanPoint
deriving DecidableEq

/-- TS interface `MagoAnnotation`; `span` is optional because
`updateDiagnostics` guards on `!annotation.span`. -/
structure MagoAnnotation where
  kind : String
  span : Option MagoSpan
deriving DecidableEq

/-- TS interface `MagoEdit`; `safety` is kept as the raw JSON string. -/
structure MagoEdit where
  rangeStart : Nat
  rangeEnd : Nat
  new_text : String
  safety : Option String
deriving DecidableEq

/-- the category stamped on an issue by the invocation that produced it
(TS union type `'lint' | 'analysis' | 'guard'`). -/
inductive MagoCategory where
  | lint
  | analysis
  | guard
deriving DecidableEq

/-- TS interface `MagoIssue`. -/
structure MagoIssue where
  level : String
  code : String
  message : String
  notes : Option (List String)
  help : Option String
  annotations : List MagoAnnotation
  edits : Option (List (MagoFileId × List MagoEdit))
  category : Option MagoCategory
deriving DecidableEq

/-- TS interface `MagoResult`. -/
structure MagoResult where
  issues : List MagoIssue
deriving DecidableEq

/- ## Process invoker: the `close` handler of `runMago` (lines 753-795)

`JSON.parse` is external library code; it is abstracted as a parameter
`parse : String → Option RawResult`, where `RawResult` is the parsed
payload viewed through the one access path the handler uses
(`result.issues`).  `errText` stands for the JavaScript rendering of the
exception thrown by the second `JSON.parse` call. -/

/-- parsed JSON payload as the `close` handler sees it: the `issues`
field may be absent (`!result.issues`). -/
structure RawResult where
  issues : Option (List MagoIssue)
deriving DecidableEq

/-- outcome of the promise: `resolved` with a payload or `rejected` with
an error message. -/
inductive RunOutcome where
  | resolved (r : RawResult)
  | rejected (msg : String)
deriving DecidableEq

/-- embedding of the `proc.on('close', (code) => ...)` handler of
`runMago` (extension.ts lines 753-795). -/
def handleClose (parse : String → Option RawResult) (errText : String)
    (code : Int) (stdout stderr : String) : RunOutcome :=
  if code ≠ 0 ∧ stderr ≠ "" then
    -- `if (code !== 0 && stderr)` branch
    match parse stdout with
    | some result => .resolved result
    | none =>
      -- `reject(new Error(stderr || `Mago exited with code ${code}`))`
      .rejected (if stderr ≠ "" then stderr
                 else "Mago exited with code " ++ toString code)
  else
    match parse stdout with
    | some result =>
      -- `if (!result.issues) { result.issues = []; }`
      .resolved { issues := some (result.issues.getD []) }
    | none =>
      if (jsTrim stdout.toList = [] ∧ code = 0) then
        -- `resolve({ issues: [] })`
        .resolved { issues := some [] }
      else
        .rejected ("Failed to parse Mago output: " ++ errText)

/- ## Command assembler (extension.ts lines 682-721)

`assembleArgs` embeds the argument assembly of `runMago` after the
executable has been resolved: `command` is the resolved command vector
(executable first), `args` the caller-supplied subcommand argument list.
Optional configuration values model JavaScript truthiness: an absent or
empty string, and an absent or zero thread count, are falsy. -/

/-- detection of an already-supplied flag:
`args.some(arg => arg === flag || arg.startsWith(flag + '='))`;
JavaScript `String.prototype.startsWith` is character-sequence prefix
testing, embedded on the character lists. -/
def hasFlag (args : List String) (flag : String) : Bool :=
  args.any (fun arg => arg = flag || (flag ++ "=").toList.isPrefixOf arg.toList)

/-- truthiness of an optional string configuration value. -/
def strSet : Option String → Bool
  | some s => s ≠ ""
  | none => false

/-- truthiness of an optional numeric configuration value. -/
def natSet : Option Nat → Bool
  | some n => n ≠ 0
  | none => false

/-- the top-level option vector built by `runMago` (lines 687-710):
`--workspace`, `--config`, `--php-version`, `--threads`, in that order,
each guarded by configuration truthiness and absence from `args`. -/
def buildTopLevelArgs (workspaceRoot : String) (configFile phpVersion : Option String)
    (threads : Option Nat) (args : List String) : List String :=
  (if ¬hasFlag args "--workspace" then ["--workspace", workspaceRoot] else [])
  ++ (if strSet configFile ∧ ¬hasFlag args "--config" then
        ["--config", configFile.getD ""] else [])
  ++ (if strSet phpVersion ∧ ¬hasFlag args "--php-version" then
        ["--php-version", phpVersion.getD ""] else [])
  ++ (if natSet threads ∧ ¬hasFlag args "--threads" then
        ["--threads", toString (threads.getD 0)] else [])

/-- the subcommand argument list after `runMago` pushes
`--minimum-report-level` (lines 713-717). -/
def argsWithMinLevel (minReportLevel : String) (args : List String) : List String :=
  if minReportLevel ≠ "" ∧ ¬hasFlag args "--minimum-report-level" then
    args ++ ["--minimum-report-level", minReportLevel]
  else
    args

/-- the full argument vector
`[...command.slice(1), ...topLevelArgs, ...args]` (line 721). -/
def assembleArgs (command : List String) (workspaceRoot : String)
    (configFile phpVersion : Option String) (threads : Option Nat)
    (minReportLevel : String) (args : List String) : List String :=
  command.drop 1
    ++ buildTopLevelArgs workspaceRoot configFile phpVersion threads args
    ++ argsWithMinLevel minReportLevel args

/- ## Coordinate mapper: `getColumnFromOffset` (extension.ts lines 881-892)

the file system is a parameter `fs : String → Option (List Char)`
mapping a path to the file's content when readable
(`fs.readFileSync` succeeds) and `none` when the read throws. -/

/-- type of the modelled file system. -/
abbrev FS := String → Option (List Char)

/-- embedding of `getColumnFromOffset`: substring before the offset,
split on line feed, length of the last fragment; `0` when the file
cannot be read (the `catch` branch). -/
def getColumnFromOffset (fs : FS) (filePath : String) (offset : Nat) : Nat :=
  match fs filePath with
  | some content =>
    ((splitChar '\n' (content.take offset)).getLastD []).length
  | none => 0

/- ## Diagnostic projection (severity, range, composite code) -/

/-- the VS Code severity values used by `mapSeverity`. -/
inductive DiagnosticSeverity where
  | error
  | warning
  | information
  | hint
deriving DecidableEq

/-- embedding of `mapSeverity` (lines 894-907): switch on
`level.toLowerCase()`, defaulting to `Warning`; lower-casing is applied
per character on the character list. -/
def mapSeverity (level : String) : DiagnosticSeverity :=
  let l := level.toList.map Char.toLower
  if l = "error".toList then .error
  else if l = "warning".toList then .warning
  else if l = "note".toList then .information
  else if l = "help".toList then .hint
  else .warning

/-- editor range: four components kept as `Int` so the
`Math.max(0, ...)` clamps of `updateDiagnostics` are visible. -/
structure DiagRange where
  startLine : Int
  startCol : Int
  endLine : Int
  endCol : Int
deriving DecidableEq

/-- one entry of `diagnostic.relatedInformation` (path of the location
uri, location range, message). -/
structure RelatedInfo where
  path : String
  range : DiagRange
  message : String
deriving DecidableEq

/-- editor-facing diagnostic as built by `updateDiagnostics`. -/
structure Diagnostic where
  range : DiagRange
  message : String
  severity : DiagnosticSeverity
  source : String
  code : String
  relatedInformation : List RelatedInfo
deriving DecidableEq

/-- the composite-code prefix: TS
`issue.category === 'analysis' ? 'analyze' : issue.category`. -/
def categoryToken (c : MagoCategory) : String :=
  match c with
  | .analysis => "analyze"
  | .lint => "lint"
  | .guard => "guard"

/-- the diagnostic code of an issue (lines 841-847): `prefix:code` when a
category is present, the bare issue code otherwise. -/
def diagnosticCode (issue : MagoIssue) : String :=
  match issue.category with
  | some c => categoryToken c ++ ":" ++ issue.code
  | none => issue.code

/- ## Diagnostic reconciler: `updateDiagnostics` (extension.ts lines 808-878) -/

/-- a JavaScript `Map` as an association list.  `mapSet` conses the new
binding and `mapFind` takes the most recent one, which matches
`Map.set` / `Map.get` observably (iteration order is never used on the
issue map). -/
def mapSet (m : List (String × MagoIssue)) (k : String) (v : MagoIssue) :
    List (String × MagoIssue) :=
  (k, v) :: m

/-- lookup in the modelled issue map (`Map.get`). -/
def mapFind (m : List (String × MagoIssue)) (k : String) : Option MagoIssue :=
  (m.find? (fun p => p.1 = k)).map (·.2)

/-- per-file diagnostics map: `diagnosticsMap.get(filePath)!.push(d)`,
creating the entry first when absent.  A new key is appended at the end,
matching `Map` insertion order. -/
def addDiag : List (String × List Diagnostic) → String → Diagnostic →
    List (String × List Diagnostic)
  | [], p, d => [(p, [d])]
  | (q, ds) :: rest, p, d =>
    if q = p then (q, ds ++ [d]) :: rest
    else (q, ds) :: addDiag rest p d

/-- process-wide state published by the reconciler: the diagnostic
collection (per-file) and the issue index `issueMap`. -/
structure DiagState where
  diagnostics : List (String × List Diagnostic)
  issueMap : List (String × MagoIssue)
deriving DecidableEq

/-- the usability guard of the loop body:
`const annotation = issue.annotations?.[0]; if (!annotation || !annotation.span) continue;`. -/
def hasUsableSpan (issue : MagoIssue) : Bool :=
  match issue.annotations.head? with
  | some a => a.span.isSome
  | none => false

/-- the diagnostic built for one issue with first-annotation span `sp`
(lines 821-859). -/
def mkDiagnostic (fs : FS) (issue : MagoIssue) (sp : MagoSpan) : Diagnostic :=
  let filePath := sp.file_id.path
  let startCol := getColumnFromOffset fs filePath sp.start.offset
  let endCol := getColumnFromOffset fs filePath sp.stop.offset
  let range : DiagRange :=
    { startLine := max 0 sp.start.line
      startCol := max 0 (startCol : Int)
      endLine := max 0 sp.stop.line
      endCol := max 0 (endCol : Int) }
  { range := range
    message := issue.message
    severity := mapSeverity issue.level
    source := "mago"
    code := diagnosticCode issue
    relatedInformation :=
      match issue.help with
      | some h => [{ path := filePath, range := range, message := h }]
      | none => [] }

/-- the issue-index key stored for one issue (line 863):
`${filePath}:${start.line}:${startCol}:${diagnosticCode}` — note the
raw tool line, not the clamped range line. -/
def issueKeyOf (fs : FS) (issue : MagoIssue) (sp : MagoSpan) : String :=
  sp.file_id.path ++ ":" ++ toString sp.start.line ++ ":"
    ++ toString (getColumnFromOffset fs sp.file_id.path sp.start.offset) ++ ":"
    ++ diagnosticCode issue

/-- intermediate state of the reconciliation loop. -/
structure BuildState where
  diagnosticsMap : List (String × List Diagnostic)
  issueMap : List (String × MagoIssue)

/-- one iteration of `for (const issue of result.issues || [])`. -/
def updateStep (fs : FS) (st : BuildState) (issue : MagoIssue) : BuildState :=
  match issue.annotations.head? with
  | none => st
  | some a =>
    match a.span with
    | none => st
    | some sp =>
      { diagnosticsMap := addDiag st.diagnosticsMap sp.file_id.path
          (mkDiagnostic fs issue sp)
        issueMap := mapSet st.issueMap (issueKeyOf fs issue sp) issue }

/-- embedding of `updateDiagnostics` (lines 808-878).  The previous
state is a parameter but `issueMap.clear()` (line 811) and
`diagnosticCollection.clear()` (line 873) discard it: the new state is
built from the incoming batch alone. -/
def updateDiagnostics (fs : FS) (_prev : DiagState) (result : MagoResult) :
    DiagState :=
  let final := result.issues.foldl (updateStep fs)
    { diagnosticsMap := [], issueMap := [] }
  { diagnostics := final.diagnosticsMap
    issueMap := final.issueMap }

/-- lookup of one file's list in a per-file diagnostics map. -/
def lookupDiagsMap (m : List (String × List Diagnostic)) (filePath : String) :
    List Diagnostic :=
  ((m.find? (fun p => p.1 = filePath)).map (·.2)).getD []

/-- the diagnostics published for one file path (lookup in the cleared
and re-set diagnostic collection). -/
def publishedDiags (st : DiagState) (filePath : String) : List Diagnostic :=
  lookupDiagsMap st.diagnostics filePath

/-- the issue-index lookup performed by
`MagoCodeActionProvider.provideCodeActions` (lines 1518-1522): the key is
rebuilt from the document path and the diagnostic's range start and
code. -/
def lookupIssueForDiag (st : DiagState) (filePath : String) (d : Diagnostic) :
    Option MagoIssue :=
  mapFind st.issueMap
    (filePath ++ ":" ++ toString d.range.startLine ++ ":"
      ++ toString d.range.startCol ++ ":" ++ d.code)

/- ## Text insertion (WorkspaceEdit.insert on a line-structured document)

a document is a list of lines without line feeds.  Inserting text at
position `(l, c)` splits line `l` at column `c`, splices the text in, and
re-splits on line feeds — exactly what inserting into the joined text
does. -/

/-- a document: list of lines, none containing `'\n'`. -/
abbrev Doc := List (List Char)

/-- an insertion edit: line, column, inserted text. -/
structure InsertEdit where
  line : Nat
  col : Nat
  text : List Char
deriving DecidableEq

/-- application of one insertion to a document. -/
def applyInsert (doc : Doc) (e : InsertEdit) : Doc :=
  let target := doc.getD e.line []
  doc.take e.line
    ++ splitChar '\n' (target.take e.col ++ e.text ++ target.drop e.col)
    ++ doc.drop (e.line + 1)

/-- a line inserted at index `i`, pushing the old line `i` down. -/
def insertLineAt (doc : Doc) (i : Nat) (l : List Char) : Doc :=
  doc.take i ++ [l] ++ doc.drop i

/- ## Suppression editor: `addSuppression` (extension.ts lines 1621-1671) -/

/-- the closing-brace test of `addSuppression` (lines 1640-1641): the
trimmed previous line is `}`, `};`, `],`, `);`, or matches
`/^[}\]\);,]+$/`. -/
def isClosingLine (l : List Char) : Bool :=
  let t := jsTrim l
  t = "\x7d".toList || t = "\x7d;".toList || t = "],".toList || t = ");".toList
    || (t ≠ [] && t.all (fun c => c = '}' || c = ']' || c = ')' || c = ';' || c = ','))

/-- the suppression comment text (without indentation):
`// @mago-expect ${suppressionCode}`. -/
def expectComment (suppressionCode : List Char) : List Char :=
  "// @mago-expect ".toList ++ suppressionCode

/-- embedding of `addSuppression`: the insertion edit it builds for
target line `line` (0-indexed).  `Math.max(0, line - 1)` is `Nat`
subtraction. -/
def addSuppression (doc : Doc) (line : Nat) (suppressionCode : List Char) :
    InsertEdit :=
  let issueLineText := doc.getD line []
  let indentation := leadingWS issueLineText
  let prevLineNum := line - 1
  let prevLineText := doc.getD prevLineNum []
  if isClosingLine prevLineText then
    -- insert after the closing brace, on a new line
    { line := prevLineNum, col := prevLineText.length
      text := '\n' :: (indentation ++ expectComment suppressionCode) }
  else
    -- insert on a new line before the issue line
    { line := line, col := 0
      text := indentation ++ expectComment suppressionCode ++ ['\n'] }

/-- the document after `addSuppression`'s edit is applied. -/
def addSuppressionResult (doc : Doc) (line : Nat) (suppressionCode : List Char) :
    Doc :=
  applyInsert doc (addSuppression doc line suppressionCode)

/- ## Format-ignore-region editor: `addFormatIgnoreRegion`
(extension.ts lines 1756-1797) -/

/-- the start marker line built from the selection start line's
indentation: `${startIndentation}// @mago-format-ignore-start`. -/
def regionStartLine (doc : Doc) (selStart : Nat) : List Char :=
  leadingWS (doc.getD selStart []) ++ "// @mago-format-ignore-start".toList

/-- the end marker line built from the selection end line's indentation:
`${endIndentation}// @mago-format-ignore-end`. -/
def regionEndLine (doc : Doc) (selEnd : Nat) : List Char :=
  leadingWS (doc.getD selEnd []) ++ "// @mago-format-ignore-end".toList

/-- the two insertion edits built by `addFormatIgnoreRegion` for a
selection spanning lines `selStart..selEnd`: the start marker at
`(max 0 (selStart - 1), 0)` and the end marker at `(selEnd + 1, 0)`,
both positions in the original document. -/
def addFormatIgnoreRegion (doc : Doc) (selStart selEnd : Nat) :
    InsertEdit × InsertEdit :=
  ({ line := selStart - 1, col := 0
     text := regionStartLine doc selStart ++ ['\n'] },
   { line := selEnd + 1, col := 0
     text := regionEndLine doc selEnd ++ ['\n'] })

/-- the document after both edits of `addFormatIgnoreRegion` are applied
(both positions refer to the original document, so the lower insertion
is applied first). -/
def addFormatIgnoreRegionResult (doc : Doc) (selStart selEnd : Nat) : Doc :=
  let es := addFormatIgnoreRegion doc selStart selEnd
  applyInsert (applyInsert doc es.2) es.1

/- ## Derived notions used by the statements -/

/-- the diagnostics a batch contributes to one file path, in batch
order. -/
def diagsOfBatch (fs : FS) (l : List MagoIssue) (p : String) : List Diagnostic :=
  l.filterMap (fun issue =>
    match issue.annotations.head? with
    | some a =>
      match a.span with
      | some sp =>
        if sp.file_id.path = p then some (mkDiagnostic fs issue sp) else none
      | none => none
    | none => none)

/-- the issue-index entries a batch contributes, in batch order. -/
def entriesOfBatch (fs : FS) (l : List MagoIssue) : List (String × MagoIssue) :=
  l.filterMap (fun issue =>
    match issue.annotations.head? with
    | some a =>
      match a.span with
      | some sp => some (issueKeyOf fs issue sp, issue)
      | none => none
    | none => none)

/- ## Concrete instances used by witnesses and counterexamples -/

/-- concrete parse function used by the C3 witness. -/
def parseC3 : String → Option RawResult :=
  fun s => if s = "issues-json" then some { issues := some [] } else none

/-- the unreadable file system (every column computation falls back
to 0). -/
def fs0 : FS := fun _ => none

/-- concrete span in `f.php` used by counterexamples. -/
def spG : MagoSpan :=
  { file_id := { name := "f.php", path := "f.php", size := 10, file_type := "php" }
    start := { offset := 0, line := 0 }
    stop := { offset := 1, line := 0 } }

/-- concrete guard-category issue used by the C1 counterexample. -/
def issG : MagoIssue :=
  { level := "Error", code := "g1", message := "guard violation"
    notes := none, help := none
    annotations := [{ kind := "primary", span := some spG }]
    edits := none, category := some .guard }

/-- state published after reconciling a guard batch containing `issG`. -/
def prevStateC1 : DiagState :=
  updateDiagnostics fs0 { diagnostics := [], issueMap := [] } { issues := [issG] }

/-- concrete span whose tool-reported line numbers are negative. -/
def spNeg : MagoSpan :=
  { file_id := { name := "n.php", path := "n.php", size := 5, file_type := "php" }
    start := { offset := 0, line := -3 }
    stop := { offset := 1, line := -2 } }

/-- concrete lint issue with negative tool-reported lines. -/
def issNeg : MagoIssue :=
  { level := "Warning", code := "w1", message := "negative line"
    notes := none, help := none
    annotations := [{ kind := "primary", span := some spNeg }]
    edits := none, category := some .lint }

/-- concrete analysis-category issue used by the C2 counterexample and
witness. -/
def issA : MagoIssue :=
  { level := "Error", code := "no-op", message := "analysis issue"
    notes := none, help := none
    annotations := [{ kind := "primary", span := some spG }]
    edits := none, category := some .analysis }

/-- one-line document whose only line is `}` (C8 counterexample). -/
def docC8 : Doc := ["\x7d".toList]

/-- two-line document: a closing brace followed by an indented statement
(C8 witness). -/
def docC8w : Doc := ["\x7d".toList, "    stmt;".toList]

/-- seventeen-line document for the C9 scenario: selection lines 10-15,
line 9 indented four spaces, line 16 indented two spaces, the selection
start line 10 not indented and the selection end line 15 indented one
space. -/
def docC9 : Doc :=
  ["a0".toList, "a1".toList, "a2".toList, "a3".toList, "a4".toList,
   "a5".toList, "a6".toList, "a7".toList, "a8".toList, "    x9".toList,
   "y10".toList, "a11".toList, "a12".toList, "a13".toList, "a14".toList,
   " w15".toList, "  v16".toList]

/- ## Helper lemmas about `splitChar` -/

/-- `splitChar` never returns the empty list. -/
theorem splitChar_ne_nil (c : Char) (l : List Char) : splitChar c l ≠ [] := by
  induction l with
  | nil => simp [splitChar]
  | cons x xs ih =>
    simp only [splitChar]
    split
    · simp
    · cases h : splitChar c xs with
      | nil => simp
      | cons y ys => simp [h]

/-- splitting a separator-free list yields the one-fragment list. -/
theorem splitChar_of_not_mem (c : Char) (l : List Char) (h : c ∉ l) :
    splitChar c l = [l] := by
  induction l with
  | nil => rfl
  | cons x xs ih =>
    have hx : x ≠ c := fun hxc => h (hxc ▸ List.mem_cons_self x xs)
    have hxs : c ∉ xs := fun hm => h (List.mem_cons_of_mem x hm)
    simp [splitChar, hx, ih hxs]

/-- splitting around one explicit separator occurrence, when the part
before it is separator-free. -/
theorem splitChar_append_cons (c : Char) (a b : List Char) (ha : c ∉ a) :
    splitChar c (a ++ c :: b) = a :: splitChar c b := by
  induction a with
  | nil => simp [splitChar]
  | cons x xs ih =>
    have hx : x ≠ c := fun hxc => ha (hxc ▸ List.mem_cons_self x xs)
    have hxs : c ∉ xs := fun hm => ha (List.mem_cons_of_mem x hm)
    rw [List.cons_append]
    rw [show splitChar c (x :: (xs ++ c :: b))
        = match splitChar c (xs ++ c :: b) with
          | [] => [[x]]
          | y :: ys => (x :: y) :: ys from by simp [splitChar, hx]]
    rw [ih hxs]

/-- appending one character to the split list: a separator appends an
empty fragment, any other character extends the last fragment. -/
theorem splitChar_concat (c x : Char) (l : List Char) :
    splitChar c (l ++ [x]) =
      if x = c then splitChar c l ++ [[]]
      else (splitChar c l).dropLast
        ++ [(splitChar c l).getLastD [] ++ [x]] := by
  induction l with
  | nil =>
    by_cases hx : x = c <;> simp [splitChar, hx]
  | cons y ys ih =>
    rw [List.cons_append]
    by_cases hy : y = c
    · rw [show splitChar c (y :: (ys ++ [x])) = [] :: splitChar c (ys ++ [x])
        from by simp [splitChar, hy]]
      rw [ih]
      rw [show splitChar c (y :: ys) = [] :: splitChar c ys
        from by simp [splitChar, hy]]
      rcases hs : splitChar c ys with _ | ⟨z, zs⟩
      · exact absurd hs (splitChar_ne_nil c ys)
      · by_cases hx : x = c
        · rw [if_pos hx, if_pos hx]
          simp
        · rw [if_neg hx, if_neg hx]
          simp [List.getLastD, List.dropLast]
    · rw [show splitChar c (y :: (ys ++ [x]))
          = match splitChar c (ys ++ [x]) with
            | [] => [[y]]
            | z :: zs => (y :: z) :: zs from by simp [splitChar, hy]]
      rw [ih]
      rw [show splitChar c (y :: ys)
          = match splitChar c ys with
            | [] => [[y]]
            | z :: zs => (y :: z) :: zs from by simp [splitChar, hy]]
      rcases hs : splitChar c ys with _ | ⟨z, zs⟩
      · exact absurd hs (splitChar_ne_nil c ys)
      · by_cases hx : x = c
        · rw [if_pos hx, if_pos hx]
          simp
        · rw [if_neg hx, if_neg hx]
          cases zs with
          | nil => simp [List.getLastD, List.dropLast]
          | cons w ws => simp [List.getLastD, List.dropLast]

/-- the last fragment of a character split is the longest separator-free
suffix. -/
theorem getLastD_splitChar (c : Char) (l : List Char) :
    (splitChar c l).getLastD [] = (l.reverse.takeWhile (fun d => d ≠ c)).reverse := by
  induction l using List.reverseRecOn with
  | nil => rfl
  | append_singleton l x ih =>
    rw [splitChar_concat]
    have h1 : (l ++ [x]).reverse = x :: l.reverse := by simp
    by_cases hx : x = c
    · subst hx
      rw [if_pos rfl, List.getLastD_concat, h1, List.takeWhile_cons,
        if_neg (by simp), List.reverse_nil]
    · rw [if_neg hx, List.getLastD_concat, ih, h1, List.takeWhile_cons,
        if_pos (by simp [hx]), List.reverse_cons]

/- ## Claim C3: non-zero exit, non-empty stderr, parseable stdout
resolves with the parsed payload -/

/-- C3 (confirmed): when the child exits non-zero, stderr is non-empty
and stdout parses as JSON, the `close` handler of `runMago` resolves with
the parsed payload; the exit code is ignored and no error surfaces. -/
theorem runMago_nonzero_json_resolves (parse : String → Option RawResult)
    (errText : String) (code : Int) (stdout stderr : String) (r : RawResult)
    (hcode : code ≠ 0) (hstderr : stderr ≠ "") (hparse : parse stdout = some r) :
    handleClose parse errText code stdout stderr = .resolved r := by
  unfold handleClose
  rw [if_pos ⟨hcode, hstderr⟩, hparse]

/-- witness for C3 at exit code 2, stderr `found issues`, parseable
stdout. -/
theorem runMago_nonzero_json_resolves_witness :
    handleClose parseC3 "E" 2 "issues-json" "found issues"
      = .resolved { issues := some [] } :=
  runMago_nonzero_json_resolves parseC3 "E" 2 "issues-json" "found issues"
    { issues := some [] } (by decide) (by decide) (by decide)

/- ## Claim C4: non-zero exit with unparseable stdout -/

/-- C4 counterexample: exit code 2, empty stderr, unparseable stdout —
the handler rejects with `Failed to parse Mago output: ...`, which is
neither the stderr text nor a generic message naming the exit code (the
`Mago exited with code ...` fallback of line 768 is unreachable because
that branch requires non-empty stderr). -/
theorem runMago_nonzero_unparseable_counterexample :
    handleClose (fun _ => none) "SyntaxError: Unexpected token" 2 "garbage" ""
      = .rejected ("Failed to parse Mago output: SyntaxError: Unexpected token")
    ∧ ("Failed to parse Mago output: SyntaxError: Unexpected token" : String) ≠ ""
    ∧ ("Failed to parse Mago output: SyntaxError: Unexpected token" : String)
      ≠ "Mago exited with code 2" := by
  refine ⟨?_, by decide, by decide⟩
  rfl

/-- C4 (corrected): when the child exits non-zero and stdout does not
parse, the handler rejects; the message is the stderr text when stderr is
non-empty, and otherwise the JSON-parse failure message (not a message
naming the exit code). -/
theorem runMago_nonzero_unparseable_rejects (parse : String → Option RawResult)
    (errText : String) (code : Int) (stdout stderr : String)
    (hcode : code ≠ 0) (hparse : parse stdout = none) :
    handleClose parse errText code stdout stderr =
      .rejected (if stderr ≠ "" then stderr
                 else "Failed to parse Mago output: " ++ errText) := by
  unfold handleClose
  by_cases hstderr : stderr = ""
  · subst hstderr
    rw [if_neg (by simp), hparse, if_neg (fun h => hcode h.2),
      if_neg (by simp)]
  · rw [if_pos ⟨hcode, hstderr⟩, hparse, if_pos hstderr, if_pos hstderr]

/-- witness for C4's corrected statement: empty stderr yields the parse
failure message. -/
theorem runMago_nonzero_unparseable_rejects_witness :
    handleClose (fun _ => none) "boom" 3 "not json" "" =
      .rejected (if ("" : String) ≠ "" then ""
                 else "Failed to parse Mago output: " ++ "boom") :=
  runMago_nonzero_unparseable_rejects (fun _ => none) "boom" 3 "not json" ""
    (by decide) rfl

/- ## Claim C7: top-level argument ordering -/

/-- C7 (confirmed): with config file, PHP version and thread count all
set (truthy) and none of the four flags already present in the
subcommand argument list, the assembled vector is exactly the command
prefix, then `--workspace`, `--config`, `--php-version`, `--threads`
with their values in that order, then the subcommand token and the rest;
the subcommand token stays at the head of the trailing segment. -/
theorem runMago_top_level_arg_ordering (command : List String)
    (root cf pv : String) (t : Nat) (lvl : String) (sub : String)
    (rest : List String)
    (hcf : cf ≠ "") (hpv : pv ≠ "") (ht : t ≠ 0)
    (h1 : hasFlag (sub :: rest) "--workspace" = false)
    (h2 : hasFlag (sub :: rest) "--config" = false)
    (h3 : hasFlag (sub :: rest) "--php-version" = false)
    (h4 : hasFlag (sub :: rest) "--threads" = false) :
    assembleArgs command root (some cf) (some pv) (some t) lvl (sub :: rest)
      = command.drop 1
        ++ ["--workspace", root, "--config", cf, "--php-version", pv,
            "--threads", toString t]
        ++ argsWithMinLevel lvl (sub :: rest)
    ∧ (argsWithMinLevel lvl (sub :: rest)).head? = some sub := by
  constructor
  · unfold assembleArgs buildTopLevelArgs
    rw [h1, h2, h3, h4]
    simp [strSet, natSet, hcf, hpv, ht]
  · unfold argsWithMinLevel
    split <;> simp

/- ## Claim C1: does reconciliation merge with other categories? -/

/-- C1 counterexample: after a guard issue for `f.php` is published,
reconciling an empty issue batch (no category at all, in particular not
guard) removes the guard diagnostic — `updateDiagnostics` does not merge
with diagnostics held for other categories. -/
theorem updateDiagnostics_empty_batch_clears :
    publishedDiags prevStateC1 "f.php" ≠ []
    ∧ publishedDiags (updateDiagnostics fs0 prevStateC1 { issues := [] })
        "f.php" = [] := by
  constructor
  · decide
  · rfl

/-- C1 (corrected): `updateDiagnostics` replaces the whole published set
and issue index with those computed from the incoming batch alone — the
result is independent of the previously published state (because of
`issueMap.clear()` and `diagnosticCollection.clear()`), and an empty
batch empties everything.  Category coexistence in the extension comes
from the callers (`scanFile` / `scanProject`), which concatenate all
enabled categories' tagged issues into a single batch per pass. -/
theorem updateDiagnostics_wholesale_replacement (fs : FS)
    (prev prevOther : DiagState) (result : MagoResult) :
    updateDiagnostics fs prev result = updateDiagnostics fs prevOther result
    ∧ updateDiagnostics fs prev { issues := [] }
        = { diagnostics := [], issueMap := [] } :=
  ⟨rfl, rfl⟩

/- ## Claim C5: issues without a usable span are dropped -/

/-- an issue without a usable first-annotation span leaves the loop state
untouched (the `continue` of line 818). -/
theorem updateStep_of_not_usable (fs : FS) (st : BuildState) (issue : MagoIssue)
    (h : hasUsableSpan issue = false) : updateStep fs st issue = st := by
  unfold updateStep
  cases hh : issue.annotations.head? with
  | none => rfl
  | some a =>
    cases hsp : a.span with
    | none => simp [hsp]
    | some sp =>
      exfalso
      rw [hasUsableSpan, hh] at h
      simp [hsp] at h

/-- the reconciliation fold skips exactly the unusable issues. -/
theorem foldl_updateStep_filter (fs : FS) (l : List MagoIssue) (st : BuildState) :
    l.foldl (updateStep fs) st = (l.filter hasUsableSpan).foldl (updateStep fs) st := by
  induction l generalizing st with
  | nil => rfl
  | cons issue t ih =>
    by_cases hu : hasUsableSpan issue = true
    · rw [List.foldl_cons, List.filter_cons, if_pos hu, List.foldl_cons, ih]
    · rw [List.foldl_cons, List.filter_cons, if_neg hu,
        updateStep_of_not_usable fs st issue (by simpa using hu), ih]

/-- C5 (confirmed): a reconciliation pass is unchanged when the issues
whose annotations list is empty, or whose first annotation lacks a span,
are removed from the batch — such issues produce no diagnostic and no
issue-index entry; they are silently dropped. -/
theorem updateDiagnostics_drops_spanless (fs : FS) (prev : DiagState)
    (issues : List MagoIssue) :
    updateDiagnostics fs prev { issues := issues }
      = updateDiagnostics fs prev { issues := issues.filter hasUsableSpan } := by
  unfold updateDiagnostics
  rw [foldl_updateStep_filter]

/- ## Claim C6: the column computed from an offset -/

/-- C6 (confirmed): over a readable file, `getColumnFromOffset` returns
the length of the final fragment of the line-feed split of the content
preceding the offset — equivalently, the length of the longest
line-feed-free suffix of that prefix — and it returns 0 for every path
the file system cannot read. -/
theorem getColumnFromOffset_spec (fs : FS) (filePath : String) (offset : Nat) :
    getColumnFromOffset fs filePath offset
      = match fs filePath with
        | some content =>
          ((content.take offset).reverse.takeWhile (fun d => d ≠ '\n')).length
        | none => 0 := by
  unfold getColumnFromOffset
  cases h : fs filePath with
  | none => rfl
  | some content =>
    show ((splitChar '\n' (content.take offset)).getLastD []).length
      = ((content.take offset).reverse.takeWhile (fun d => d ≠ '\n')).length
    rw [getLastD_splitChar]
    simp

/- ## Fold characterization of the published diagnostics -/

/-- unfolding of the per-file lookup over a cons cell. -/
theorem lookupDiagsMap_cons (q : String) (ds : List Diagnostic)
    (rest : List (String × List Diagnostic)) (p : String) :
    lookupDiagsMap ((q, ds) :: rest) p
      = if q = p then ds else lookupDiagsMap rest p := by
  by_cases h : q = p
  · simp [lookupDiagsMap, List.find?_cons, h]
  · simp [lookupDiagsMap, List.find?_cons, h]

/-- effect of `addDiag` on a per-file lookup (helper lemma). -/
theorem lookupDiagsMap_addDiag (m : List (String × List Diagnostic))
    (p' : String) (d0 : Diagnostic) (p : String) :
    lookupDiagsMap (addDiag m p' d0) p
      = if p = p' then lookupDiagsMap m p ++ [d0] else lookupDiagsMap m p := by
  induction m with
  | nil =>
    by_cases hp : p = p'
    · subst hp
      simp [addDiag, lookupDiagsMap_cons, lookupDiagsMap]
    · have hp' : ¬p' = p := fun h => hp (Eq.symm h)
      simp [addDiag, lookupDiagsMap_cons, lookupDiagsMap, hp, hp']
  | cons head rest ih =>
    obtain ⟨q, ds⟩ := head
    by_cases hq : q = p'
    · subst hq
      rw [show addDiag ((q, ds) :: rest) q d0 = (q, ds ++ [d0]) :: rest
        from by simp [addDiag]]
      by_cases hp : p = q
      · subst hp
        simp [lookupDiagsMap_cons]
      · have hp' : ¬q = p := fun h => hp (Eq.symm h)
        simp [lookupDiagsMap_cons, hp, hp']
    · rw [show addDiag ((q, ds) :: rest) p' d0 = (q, ds) :: addDiag rest p' d0
        from by simp [addDiag, hq]]
      rw [lookupDiagsMap_cons, lookupDiagsMap_cons]
      by_cases hp : q = p
      · have hpp : ¬p = p' := fun h => hq (hp.trans h)
        simp only [if_pos hp, if_neg hpp]
      · simp only [if_neg hp]
        exact ih

/-- the reconciliation fold publishes, for each file, the previous
accumulator content followed by the batch's contributions in order. -/
theorem lookupDiagsMap_foldl (fs : FS) (l : List MagoIssue) (st : BuildState)
    (p : String) :
    lookupDiagsMap ((l.foldl (updateStep fs) st).diagnosticsMap) p
      = lookupDiagsMap st.diagnosticsMap p ++ diagsOfBatch fs l p := by
  induction l generalizing st with
  | nil => simp [diagsOfBatch]
  | cons issue t ih =>
    rw [List.foldl_cons]
    cases hh : issue.annotations.head? with
    | none =>
      rw [show updateStep fs st issue = st from by simp [updateStep, hh], ih]
      simp [diagsOfBatch, List.filterMap_cons, hh]
    | some a =>
      cases hsp : a.span with
      | none =>
        rw [show updateStep fs st issue = st from by simp [updateStep, hh, hsp],
          ih]
        simp [diagsOfBatch, List.filterMap_cons, hh, hsp]
      | some sp =>
        rw [show updateStep fs st issue
            = { diagnosticsMap := addDiag st.diagnosticsMap sp.file_id.path
                  (mkDiagnostic fs issue sp)
                issueMap := mapSet st.issueMap (issueKeyOf fs issue sp) issue }
          from by simp [updateStep, hh, hsp], ih]
        rw [lookupDiagsMap_addDiag]
        by_cases hp : p = sp.file_id.path
        · rw [if_pos hp]
          simp [diagsOfBatch, List.filterMap_cons, hh, hsp, hp.symm]
        · rw [if_neg hp]
          have hps : ¬sp.file_id.path = p := fun h => hp (Eq.symm h)
          simp [diagsOfBatch, List.filterMap_cons, hh, hsp, hps]

/-- the published per-file diagnostics of a pass are exactly the batch's
contributions for that file. -/
theorem publishedDiags_updateDiagnostics (fs : FS) (prev : DiagState)
    (result : MagoResult) (p : String) :
    publishedDiags (updateDiagnostics fs prev result) p
      = diagsOfBatch fs result.issues p := by
  unfold publishedDiags updateDiagnostics
  simp only []
  rw [lookupDiagsMap_foldl]
  rfl

/-- witness for C7 at a docker-style two-token command and a `lint`
subcommand invocation. -/
theorem runMago_top_level_arg_ordering_witness :
    assembleArgs ["docker", "exec"] "/w" (some "mago.toml") (some "8.3") (some 4)
        "error" ["lint", "--reporting-format", "json"]
      = ["exec"]
        ++ ["--workspace", "/w", "--config", "mago.toml", "--php-version",
            "8.3", "--threads", toString 4]
        ++ argsWithMinLevel "error" ["lint", "--reporting-format", "json"]
    ∧ (argsWithMinLevel "error" ["lint", "--reporting-format", "json"]).head?
        = some "lint" :=
  runMago_top_level_arg_ordering ["docker", "exec"] "/w" "mago.toml" "8.3" 4
    "error" "lint" ["--reporting-format", "json"]
    (by decide) (by decide) (by decide) (by decide) (by decide) (by decide)
    (by decide)

/- ## Claim C10: published ranges are clamped to be non-negative -/

/-- each component of the range built by `mkDiagnostic` is non-negative,
because of the four `Math.max(0, ...)` clamps. -/
theorem mkDiagnostic_range_nonneg (fs : FS) (issue : MagoIssue) (sp : MagoSpan) :
    0 ≤ (mkDiagnostic fs issue sp).range.startLine
    ∧ 0 ≤ (mkDiagnostic fs issue sp).range.startCol
    ∧ 0 ≤ (mkDiagnostic fs issue sp).range.endLine
    ∧ 0 ≤ (mkDiagnostic fs issue sp).range.endCol :=
  ⟨le_max_left 0 _, le_max_left 0 _, le_max_left 0 _, le_max_left 0 _⟩

/-- C10 (confirmed): every diagnostic published by a reconciliation pass
has a range whose start line, start column, end line and end column are
all non-negative, whatever line numbers the tool reported and whatever
the column computation produced. -/
theorem updateDiagnostics_range_nonneg (fs : FS) (prev : DiagState)
    (result : MagoResult) (p : String) (d : Diagnostic)
    (hd : d ∈ publishedDiags (updateDiagnostics fs prev result) p) :
    0 ≤ d.range.startLine ∧ 0 ≤ d.range.startCol
    ∧ 0 ≤ d.range.endLine ∧ 0 ≤ d.range.endCol := by
  rw [publishedDiags_updateDiagnostics] at hd
  obtain ⟨issue, hmem, hf⟩ := List.mem_filterMap.mp hd
  cases hh : issue.annotations.head? with
  | none =>
    rw [hh] at hf
    exact Option.noConfusion hf
  | some a =>
    cases hsp : a.span with
    | none =>
      simp only [hh, hsp] at hf
      exact Option.noConfusion hf
    | some sp =>
      simp only [hh, hsp] at hf
      by_cases hpp : sp.file_id.path = p
      · rw [if_pos hpp] at hf
        injection hf with hf
        subst hf
        exact mkDiagnostic_range_nonneg fs issue sp
      · rw [if_neg hpp] at hf
        exact Option.noConfusion hf

/-- witness for C10: an issue whose tool-reported lines are `-3` and
`-2` is published with all range components clamped non-negative. -/
theorem updateDiagnostics_range_nonneg_witness :
    mkDiagnostic fs0 issNeg spNeg
        ∈ publishedDiags (updateDiagnostics fs0 { diagnostics := [], issueMap := [] }
            { issues := [issNeg] }) "n.php"
    ∧ (0 ≤ (mkDiagnostic fs0 issNeg spNeg).range.startLine
       ∧ 0 ≤ (mkDiagnostic fs0 issNeg spNeg).range.startCol
       ∧ 0 ≤ (mkDiagnostic fs0 issNeg spNeg).range.endLine
       ∧ 0 ≤ (mkDiagnostic fs0 issNeg spNeg).range.endCol) :=
  ⟨by decide,
   updateDiagnostics_range_nonneg fs0 { diagnostics := [], issueMap := [] }
     { issues := [issNeg] } "n.php" (mkDiagnostic fs0 issNeg spNeg) (by decide)⟩

/- ## Claim C2: composite code and issue-index round-trip -/

/-- the reconciliation fold prepends the batch's issue-index entries (in
reverse, because later entries shadow earlier ones on lookup). -/
theorem issueMap_foldl (fs : FS) (l : List MagoIssue) (st : BuildState) :
    (l.foldl (updateStep fs) st).issueMap
      = (entriesOfBatch fs l).reverse ++ st.issueMap := by
  induction l generalizing st with
  | nil => simp [entriesOfBatch]
  | cons issue t ih =>
    rw [List.foldl_cons]
    cases hh : issue.annotations.head? with
    | none =>
      rw [show updateStep fs st issue = st from by simp [updateStep, hh], ih]
      simp [entriesOfBatch, List.filterMap_cons, hh]
    | some a =>
      cases hsp : a.span with
      | none =>
        rw [show updateStep fs st issue = st from by simp [updateStep, hh, hsp],
          ih]
        simp [entriesOfBatch, List.filterMap_cons, hh, hsp]
      | some sp =>
        rw [show updateStep fs st issue
            = { diagnosticsMap := addDiag st.diagnosticsMap sp.file_id.path
                  (mkDiagnostic fs issue sp)
                issueMap := mapSet st.issueMap (issueKeyOf fs issue sp) issue }
          from by simp [updateStep, hh, hsp], ih]
        simp [entriesOfBatch, List.filterMap_cons, hh, hsp, mapSet]

/-- the issue index published by a pass is the batch's entries, most
recent first. -/
theorem issueMap_updateDiagnostics (fs : FS) (prev : DiagState)
    (result : MagoResult) :
    (updateDiagnostics fs prev result).issueMap
      = (entriesOfBatch fs result.issues).reverse := by
  show (List.foldl (updateStep fs) { diagnosticsMap := [], issueMap := [] }
      result.issues).issueMap = _
  rw [issueMap_foldl]
  simp

/-- a key bound once (up to value) in the modelled map is found with
that value. -/
theorem mapFind_of_unique (m : List (String × MagoIssue)) (k : String)
    (v : MagoIssue) (hmem : (k, v) ∈ m)
    (huniq : ∀ p ∈ m, p.1 = k → p.2 = v) :
    mapFind m k = some v := by
  induction m with
  | nil => cases hmem
  | cons head rest ih =>
    obtain ⟨k', v'⟩ := head
    by_cases hk : k' = k
    · have hv : v' = v := huniq (k', v') (List.mem_cons_self _ _) hk
      subst hv
      subst hk
      simp [mapFind, List.find?_cons]
    · have hmem' : (k, v) ∈ rest := by
        rcases List.mem_cons.mp hmem with h | h
        · exact absurd (congrArg Prod.fst h).symm hk
        · exact h
      have huniq' : ∀ p ∈ rest, p.1 = k → p.2 = v :=
        fun p hp => huniq p (List.mem_cons_of_mem _ hp)
      rw [show mapFind ((k', v') :: rest) k = mapFind rest k
        from by simp [mapFind, List.find?_cons, hk]]
      exact ih hmem' huniq'

/-- rendering a natural number through the integer coercion changes
nothing. -/
theorem int_toString_natCast (n : Nat) : toString ((n : Int)) = toString n := rfl

/-- C2 counterexample: an analysis-category issue with code `no-op` and a
valid span is published with diagnostic code `analyze:no-op`, which is
not the composite `C:K` = `analysis:no-op` of the claim (the
reconciler rewrites the `analysis` category token to `analyze`). -/
theorem composite_code_analysis_counterexample :
    publishedDiags (updateDiagnostics fs0 { diagnostics := [], issueMap := [] }
        { issues := [issA] }) "f.php"
      = [mkDiagnostic fs0 issA spG]
    ∧ (mkDiagnostic fs0 issA spG).code = "analyze:no-op"
    ∧ (mkDiagnostic fs0 issA spG).code ≠ "analysis:no-op" := by
  refine ⟨by decide, by decide, by decide⟩

/-- C2 (corrected): for an issue with category `c`, code `K` and a valid
first-annotation span (with a non-negative tool line), the published
diagnostic's code is `prefix(c):K` where `prefix` maps `analysis` to
`analyze` and is the category name otherwise; and when no other issue of
the batch produces the same issue-index key, rebuilding the key from the
diagnostic's file path, range start line, range start column and code
and looking it up returns the original issue. -/
theorem updateDiagnostics_composite_code_roundtrip (fs : FS) (prev : DiagState)
    (issues : List MagoIssue) (issue : MagoIssue) (a : MagoAnnotation)
    (sp : MagoSpan) (c : MagoCategory)
    (hmem : issue ∈ issues)
    (hhead : issue.annotations.head? = some a)
    (hspan : a.span = some sp)
    (hcat : issue.category = some c)
    (hline : 0 ≤ sp.start.line)
    (huniq : ∀ issue' ∈ issues, issue' ≠ issue →
      ∀ a' sp', issue'.annotations.head? = some a' → a'.span = some sp' →
        issueKeyOf fs issue' sp' ≠ issueKeyOf fs issue sp) :
    (mkDiagnostic fs issue sp).code = categoryToken c ++ ":" ++ issue.code
    ∧ mkDiagnostic fs issue sp
        ∈ publishedDiags (updateDiagnostics fs prev { issues := issues })
            sp.file_id.path
    ∧ lookupIssueForDiag (updateDiagnostics fs prev { issues := issues })
        sp.file_id.path (mkDiagnostic fs issue sp) = some issue := by
  refine ⟨?_, ?_, ?_⟩
  · show diagnosticCode issue = categoryToken c ++ ":" ++ issue.code
    unfold diagnosticCode
    rw [hcat]
  · rw [publishedDiags_updateDiagnostics]
    exact List.mem_filterMap.mpr ⟨issue, hmem, by simp [hhead, hspan]⟩
  · have hkey : sp.file_id.path ++ ":"
        ++ toString (mkDiagnostic fs issue sp).range.startLine ++ ":"
        ++ toString (mkDiagnostic fs issue sp).range.startCol ++ ":"
        ++ (mkDiagnostic fs issue sp).code
        = issueKeyOf fs issue sp := by
      show sp.file_id.path ++ ":" ++ toString (max 0 sp.start.line) ++ ":"
          ++ toString (max 0
            ((getColumnFromOffset fs sp.file_id.path sp.start.offset : Nat) : Int))
          ++ ":" ++ diagnosticCode issue
        = issueKeyOf fs issue sp
      rw [max_eq_right hline,
        max_eq_right (Int.natCast_nonneg
          (getColumnFromOffset fs sp.file_id.path sp.start.offset)),
        int_toString_natCast]
      rfl
    show mapFind (updateDiagnostics fs prev { issues := issues }).issueMap _
      = some issue
    rw [hkey, issueMap_updateDiagnostics]
    apply mapFind_of_unique
    · rw [List.mem_reverse]
      exact List.mem_filterMap.mpr ⟨issue, hmem, by simp [hhead, hspan]⟩
    · intro p hp hkeq
      rw [List.mem_reverse] at hp
      obtain ⟨issue', hmem', hf⟩ := List.mem_filterMap.mp hp
      cases hh' : issue'.annotations.head? with
      | none =>
        rw [hh'] at hf
        exact Option.noConfusion hf
      | some a' =>
        cases hsp' : a'.span with
        | none =>
          simp only [hh', hsp'] at hf
          exact Option.noConfusion hf
        | some sp' =>
          simp only [hh', hsp'] at hf
          injection hf with hf
          subst hf
          by_cases heq : issue' = issue
          · rw [heq]
          · exact absurd hkeq (huniq issue' hmem' heq a' sp' hh' hsp')

/-- witness for C2's corrected statement, at a singleton analysis batch. -/
theorem updateDiagnostics_composite_code_roundtrip_witness :
    (mkDiagnostic fs0 issA spG).code
        = categoryToken MagoCategory.analysis ++ ":" ++ issA.code
    ∧ mkDiagnostic fs0 issA spG
        ∈ publishedDiags (updateDiagnostics fs0 { diagnostics := [], issueMap := [] }
            { issues := [issA] }) spG.file_id.path
    ∧ lookupIssueForDiag (updateDiagnostics fs0 { diagnostics := [], issueMap := [] }
        { issues := [issA] }) spG.file_id.path (mkDiagnostic fs0 issA spG)
      = some issA :=
  updateDiagnostics_composite_code_roundtrip fs0
    { diagnostics := [], issueMap := [] } [issA] issA
    { kind := "primary", span := some spG } spG .analysis
    (List.mem_singleton.mpr rfl) rfl rfl rfl (by decide)
    (fun issue' hi hne => absurd (List.mem_singleton.mp hi) hne)

/- ## Text-insertion lemmas -/

/-- length after inserting a line at a position inside the document. -/
theorem insertLineAt_length (doc : Doc) (i : Nat) (l : List Char)
    (h : i ≤ doc.length) :
    (insertLineAt doc i l).length = doc.length + 1 := by
  unfold insertLineAt
  simp
  omega

/-- a line of an inserted-line document is an original line or the
inserted one. -/
theorem mem_insertLineAt (doc : Doc) (i : Nat) (l x : List Char)
    (h : x ∈ insertLineAt doc i l) : x ∈ doc ∨ x = l := by
  unfold insertLineAt at h
  rcases List.mem_append.mp h with h1 | h2
  · rcases List.mem_append.mp h1 with h1a | h1b
    · exact Or.inl ((List.take_sublist i doc).subset h1a)
    · exact Or.inr (List.mem_singleton.mp h1b)
  · exact Or.inl ((List.drop_sublist i doc).subset h2)

/-- inserting `t ++ "\n"` at column 0 of a line puts `t` on a new line
immediately before that line. -/
theorem applyInsert_line_before (doc : Doc) (l : Nat) (t : List Char)
    (hl : l < doc.length) (ht : '\n' ∉ t) (hdoc : ∀ ln ∈ doc, '\n' ∉ ln) :
    applyInsert doc { line := l, col := 0, text := t ++ ['\n'] }
      = insertLineAt doc l t := by
  unfold applyInsert insertLineAt
  have htar : doc.getD l [] = doc[l] := List.getD_eq_getElem doc [] hl
  have hmem : doc.getD l [] ∈ doc := by
    rw [htar]
    exact List.getElem_mem hl
  show doc.take l
      ++ splitChar '\n' ((doc.getD l []).take 0 ++ (t ++ ['\n'])
          ++ (doc.getD l []).drop 0)
      ++ doc.drop (l + 1)
    = doc.take l ++ [t] ++ doc.drop l
  have hsplice : (doc.getD l []).take 0 ++ (t ++ ['\n']) ++ (doc.getD l []).drop 0
      = t ++ '\n' :: doc.getD l [] := by
    simp
  rw [hsplice, splitChar_append_cons '\n' t _ ht,
    splitChar_of_not_mem '\n' _ (hdoc _ hmem),
    List.drop_eq_getElem_cons hl, htar]
  simp only [List.append_assoc, List.cons_append, List.singleton_append,
    List.nil_append]

/-- inserting `"\n" ++ t` at the end of a line puts `t` on a new line
immediately after that line. -/
theorem applyInsert_line_after (doc : Doc) (l : Nat) (t : List Char)
    (hl : l < doc.length) (ht : '\n' ∉ t) (hdoc : ∀ ln ∈ doc, '\n' ∉ ln) :
    applyInsert doc { line := l, col := (doc.getD l []).length, text := '\n' :: t }
      = insertLineAt doc (l + 1) t := by
  unfold applyInsert insertLineAt
  have htar : doc.getD l [] = doc[l] := List.getD_eq_getElem doc [] hl
  have hmem : doc.getD l [] ∈ doc := by
    rw [htar]
    exact List.getElem_mem hl
  show doc.take l
      ++ splitChar '\n' ((doc.getD l []).take (doc.getD l []).length
          ++ ('\n' :: t) ++ (doc.getD l []).drop (doc.getD l []).length)
      ++ doc.drop (l + 1)
    = doc.take (l + 1) ++ [t] ++ doc.drop (l + 1)
  rw [List.take_length, List.drop_length, List.append_nil,
    splitChar_append_cons '\n' _ t (hdoc _ hmem),
    splitChar_of_not_mem '\n' t ht,
    List.take_succ, List.getElem?_eq_getElem hl, htar]
  simp only [Option.toList_some, List.append_assoc, List.cons_append,
    List.singleton_append, List.nil_append]

/- ## Claim C8: suppression comment placement -/

/-- C8 counterexample: for target line 0 of the one-line document `}`,
the claim's second branch applies (line 0 has no immediately preceding
line, so the comment should go on a new line before it), but the code
computes `Math.max(0, -1) = 0`, treats line 0 as its own previous line,
finds it closing-brace-like, and appends the comment after it. -/
theorem addSuppression_line0_counterexample :
    addSuppressionResult docC8 0 "lint:x".toList
      = ["\x7d".toList, "// @mago-expect lint:x".toList]
    ∧ addSuppressionResult docC8 0 "lint:x".toList
      ≠ ["// @mago-expect lint:x".toList, "\x7d".toList] := by
  refine ⟨by decide, by decide⟩

/-- C8 (corrected): the suppression comment, indented with the target
line's leading whitespace, lands on a new line immediately before the
target line — equivalently, immediately after the preceding line when
that line trims to a closing-brace-like token — except that for target
line 0 the code tests line 0 itself (`Math.max(0, -1) = 0`), appending
the comment after line 0 when line 0 is itself closing-brace-like.
The insertion index below is `(line - 1) + 1` in the closing branch
(equal to `line` for every `line ≥ 1`) and `line` otherwise. -/
theorem addSuppression_placement (doc : Doc) (line : Nat) (code : List Char)
    (hline : line < doc.length)
    (hdoc : ∀ ln ∈ doc, '\n' ∉ ln) (hcode : '\n' ∉ code) :
    addSuppressionResult doc line code
      = insertLineAt doc
          (if isClosingLine (doc.getD (line - 1) []) then (line - 1) + 1 else line)
          (leadingWS (doc.getD line []) ++ expectComment code) := by
  have hmemLine : doc.getD line [] ∈ doc := by
    rw [List.getD_eq_getElem doc [] hline]
    exact List.getElem_mem hline
  have hnl : '\n' ∉ leadingWS (doc.getD line []) ++ expectComment code := by
    intro hmem
    rcases List.mem_append.mp hmem with h | h
    · exact hdoc _ hmemLine ((List.takeWhile_sublist _).subset h)
    · rcases List.mem_append.mp h with h1 | h2
      · revert h1
        decide
      · exact hcode h2
  unfold addSuppressionResult addSuppression
  by_cases hc : isClosingLine (doc.getD (line - 1) []) = true
  · rw [if_pos hc, if_pos hc]
    exact applyInsert_line_after doc (line - 1) _
      (lt_of_le_of_lt (Nat.sub_le line 1) hline) hnl hdoc
  · rw [if_neg hc, if_neg hc]
    exact applyInsert_line_before doc line _ hline hnl hdoc

/-- witness for C8's corrected statement: target line 1 whose preceding
line is `}` receives the comment between the two lines, with the target
line's four-space indentation. -/
theorem addSuppression_placement_witness :
    addSuppressionResult docC8w 1 "lint:x".toList
      = insertLineAt docC8w
          (if isClosingLine (docC8w.getD (1 - 1) []) then (1 - 1) + 1 else 1)
          (leadingWS (docC8w.getD 1 []) ++ expectComment "lint:x".toList) :=
  addSuppression_placement docC8w 1 "lint:x".toList (by decide) (by decide)
    (by decide)

/- ## Claim C9: format-ignore-region marker placement -/

/-- C9 counterexample: in `docC9` (line 9 indented four spaces, line 16
indented two spaces) with selection lines 10-15, the inserted start
marker carries line 10's empty indentation (and sits at line 9, above the
line preceding the selection), and the end marker carries line 15's
one-space indentation; the claim's four-space start marker and two-space
end marker appear nowhere in the result. -/
theorem addFormatIgnoreRegion_counterexample :
    (addFormatIgnoreRegionResult docC9 10 15).getD 9 []
        = "// @mago-format-ignore-start".toList
    ∧ (addFormatIgnoreRegionResult docC9 10 15).getD 17 []
        = " // @mago-format-ignore-end".toList
    ∧ "    // @mago-format-ignore-start".toList
        ∉ addFormatIgnoreRegionResult docC9 10 15
    ∧ "  // @mago-format-ignore-end".toList
        ∉ addFormatIgnoreRegionResult docC9 10 15 := by
  refine ⟨by decide, by decide, by decide, by decide⟩

/-- C9 (corrected): `addFormatIgnoreRegion` inserts exactly two markers,
but the start marker is inserted at line `selStart - 1` (above the line
preceding the selection) with the indentation of the selection's own
start line, and the end marker immediately below the selection end with
the indentation of the selection's own end line; the indentations are
computed independently of each other, from lines `selStart` and `selEnd`,
not from the adjacent lines `selStart - 1` and `selEnd + 1`. -/
theorem addFormatIgnoreRegion_placement (doc : Doc) (selStart selEnd : Nat)
    (h1 : 1 ≤ selStart) (h2 : selStart ≤ selEnd) (h3 : selEnd + 1 < doc.length)
    (hdoc : ∀ ln ∈ doc, '\n' ∉ ln) :
    addFormatIgnoreRegionResult doc selStart selEnd
      = insertLineAt (insertLineAt doc (selEnd + 1) (regionEndLine doc selEnd))
          (selStart - 1) (regionStartLine doc selStart) := by
  have hse : selEnd < doc.length := Nat.lt_of_succ_lt h3
  have hss : selStart < doc.length := lt_of_le_of_lt h2 hse
  have hnlE : '\n' ∉ regionEndLine doc selEnd := by
    intro hmem
    rcases List.mem_append.mp hmem with h | h
    · have hmem' : doc.getD selEnd [] ∈ doc := by
        rw [List.getD_eq_getElem doc [] hse]
        exact List.getElem_mem hse
      exact hdoc _ hmem' ((List.takeWhile_sublist _).subset h)
    · revert h
      decide
  have hnlS : '\n' ∉ regionStartLine doc selStart := by
    intro hmem
    rcases List.mem_append.mp hmem with h | h
    · have hmem' : doc.getD selStart [] ∈ doc := by
        rw [List.getD_eq_getElem doc [] hss]
        exact List.getElem_mem hss
      exact hdoc _ hmem' ((List.takeWhile_sublist _).subset h)
    · revert h
      decide
  show applyInsert
      (applyInsert doc
        { line := selEnd + 1, col := 0, text := regionEndLine doc selEnd ++ ['\n'] })
      { line := selStart - 1, col := 0, text := regionStartLine doc selStart ++ ['\n'] }
    = _
  rw [applyInsert_line_before doc (selEnd + 1) (regionEndLine doc selEnd) h3
    hnlE hdoc]
  have hdocIns : ∀ ln ∈ insertLineAt doc (selEnd + 1) (regionEndLine doc selEnd),
      '\n' ∉ ln := by
    intro ln hln
    rcases mem_insertLineAt _ _ _ _ hln with h | h
    · exact hdoc ln h
    · rw [h]
      exact hnlE
  have hlen' : selStart - 1
      < (insertLineAt doc (selEnd + 1) (regionEndLine doc selEnd)).length := by
    rw [insertLineAt_length doc (selEnd + 1) _ (Nat.le_of_lt h3)]
    omega
  exact applyInsert_line_before _ (selStart - 1) (regionStartLine doc selStart)
    hlen' hnlS hdocIns

/-- witness for C9's corrected statement on the seventeen-line scenario
document. -/
theorem addFormatIgnoreRegion_placement_witness :
    addFormatIgnoreRegionResult docC9 10 15
      = insertLineAt (insertLineAt docC9 (15 + 1) (regionEndLine docC9 15))
          (10 - 1) (regionStartLine docC9 10) :=
  addFormatIgnoreRegion_placement docC9 10 15 (by decide) (by decide) (by decide)
    (by decide)

end MagoVscode
